import Mathlib

/-!
Verification development for the quacc repository's hard core: the
dict-merge utilities (`quacc/utils/dicts.py`), the file-staging helpers
(`quacc/util/files.py`), and the scratch-directory calculation runner
(`quacc/runners/ase.py`).  Python dictionaries are modelled as
insertion-ordered association lists; non-mapping values (numbers, strings,
sequences, ...) are opaque leaves, since the merge logic never looks inside
them (sequences are replaced wholesale, never merged element-wise).
-/

namespace Quacc

/-! ## Data model for nested configuration mappings

`Val` is a Python value as seen by `recursive_dict_merge`:
the removal sentinel `None` (`vnone`), an opaque non-mapping value
(`prim`), or a nested mapping (`vdict`).  `Dict` is an insertion-ordered
association list, mirroring CPython dict semantics: assignment to an
existing key keeps its position, assignment to a fresh key appends. -/

mutual

inductive Val where
  | vnone : Val
  | prim : String → Val
  | vdict : Dict → Val

inductive Dict where
  | nil : Dict
  | cons : String → Val → Dict → Dict

end

deriving instance DecidableEq for Val
deriving instance DecidableEq for Dict

/-- `key in d` for a Python dict. -/
def Dict.hasKey : Dict → String → Bool
  | .nil, _ => false
  | .cons k _ rest, key => k == key || rest.hasKey key

/-- `d[key]` (first binding wins; a CPython dict has unique keys). -/
def Dict.lookup : Dict → String → Option Val
  | .nil, _ => none
  | .cons k v rest, key => if k == key then some v else rest.lookup key

/-- `d[key] = v`: overwrite in place if the key exists, else append. -/
def Dict.set : Dict → String → Val → Dict
  | .nil, key, v => .cons key v .nil
  | .cons k v0 rest, key, v =>
      if k == key then .cons k v rest else .cons k v0 (rest.set key v)

/-- The ordered key list of a dict. -/
def Dict.keys : Dict → List String
  | .nil => []
  | .cons k _ rest => k :: rest.keys

/-- `v is None`. -/
def Val.isNone : Val → Bool
  | .vnone => true
  | _ => false

/-- `safe_dict_copy`: `deepcopy` with a shallow-copy fallback.  In a
value-semantics model a deep copy is the identity and never fails, so the
`d.copy()` fallback branch of the source is unreachable here. -/
def safe_dict_copy (d : Dict) : Dict := d

/-! ## `_recursive_dict_pair_merge`

The source walks `dict2.items()`, updating a deep copy of `dict1`:
if both colliding values are mappings they are merged recursively
(`merged[key] = _recursive_dict_pair_merge(merged[key], value)`),
otherwise `dict2`'s value wins (`merged[key] = value`).  The loop is
rendered as `mergeInto`, and the per-key value choice as `mergeAt`. -/

mutual

/-- The `for key, value in dict2.items()` loop body of
`_recursive_dict_pair_merge`, iterating over the second dict. -/
def mergeInto : Dict → Dict → Dict
  | merged, .nil => merged
  | merged, .cons k v rest => mergeInto (merged.set k (mergeAt (merged.lookup k) v)) rest

/-- The value stored for one key of `dict2`: a recursive merge when both
`merged[key]` and `value` are mappings, else `dict2`'s value. -/
def mergeAt : Option Val → Val → Val
  | some (.vdict m), .vdict d => .vdict (mergeInto (safe_dict_copy m) d)
  | _, v => v

end

/-- `_recursive_dict_pair_merge(dict1, dict2)`: `None` inputs are
normalized to `{}` (`dict1 = dict1 or ...` with the `None` check), the
first dict is copied, and the second is folded in. -/
def recursive_dict_pair_merge (d1 d2 : Option Dict) : Dict :=
  mergeInto (safe_dict_copy (d1.getD .nil)) (d2.getD .nil)

mutual

/-- `remove_dict_nones` (recursing into nested mappings through
`cleanVal`): drop every key bound to `None` unless it is listed in
`allowed_nones`.  In the source the recursion also rebuilds list values to
clean mappings nested inside them; list values are opaque leaves here. -/
def remove_dict_nones : List String → Dict → Dict
  | _, .nil => .nil
  | allowed, .cons k v rest =>
      if !v.isNone || allowed.contains k then
        .cons k (cleanVal allowed v) (remove_dict_nones allowed rest)
      else
        remove_dict_nones allowed rest

def cleanVal : List String → Val → Val
  | allowed, .vdict d => .vdict (remove_dict_nones allowed d)
  | _, v => v

end

/-- The `for i in range(len(args) - 1)` loop of `recursive_dict_merge`:
pairwise merge, left to right (`old_dict = safe_dict_copy(merged)` between
rounds, which is the identity here).  The source needs at least two
arguments (with a single argument `merged` is unbound, a `NameError`), so
the model takes the first two explicitly. -/
def mergeFold (old b : Option Dict) (rest : List (Option Dict)) : Dict :=
  let m := recursive_dict_pair_merge old b
  match rest with
  | [] => m
  | c :: rest => mergeFold (some (safe_dict_copy m)) c rest

/-- `recursive_dict_merge(*args, remove_nones=True, allowed_nones=None)`
for two or more arguments. -/
def recursive_dict_merge (d1 d2 : Option Dict) (rest : List (Option Dict) := [])
    (removeNones : Bool := true) (allowedNones : List String := []) : Dict :=
  let merged := mergeFold d1 d2 rest
  if removeNones then remove_dict_nones allowedNones merged else merged

mutual

/-- No key anywhere in the mapping (through nested mappings) is bound to
the removal sentinel `None`. -/
def Dict.noNones : Dict → Bool
  | .nil => true
  | .cons _ v rest => v.noNonesV && rest.noNones

def Val.noNonesV : Val → Bool
  | .vnone => false
  | .prim _ => true
  | .vdict d => d.noNones

end

/-! ## File-staging utilities (`quacc/util/files.py`)

A directory is a flat store of file names with opaque payloads (`Nat`).
A name ending in `.gz` holds a compressed copy of its payload;
decompression preserves the payload and strips the suffix. -/

abbrev FileStore := List (String × Nat)

def lookupFile : FileStore → String → Option Nat
  | [], _ => none
  | (n, data) :: rest, name => if n == name then some data else lookupFile rest name

/-- Write (or overwrite) a file. -/
def setFileData : FileStore → String → Nat → FileStore
  | [], name, data => [(name, data)]
  | (n, d0) :: rest, name, data =>
      if n == name then (n, data) :: rest else (n, d0) :: setFileData rest name data

/-- Delete a file. -/
def removeFileName : FileStore → String → FileStore
  | [], _ => []
  | (n0, d0) :: rest, name =>
      if n0 == name then removeFileName rest name
      else (n0, d0) :: removeFileName rest name

/-- `monty.os.path.zpath`: the given name if that file exists, otherwise
the name with a compression suffix when that exists (`.gz` modelled, the
representative of monty's suffix list), otherwise the bare name. -/
def zpath (fs : FileStore) (name : String) : String :=
  if (lookupFile fs name).isSome then name
  else if (lookupFile fs (name ++ ".gz")).isSome then name ++ ".gz"
  else name

/-- `os.path.basename`: the final path segment, the characters after the
last slash. -/
def basename (p : String) : String :=
  String.mk (p.data.foldl (fun acc c => if c = '/' then [] else acc ++ [c]) [])

/-- `name.endswith(".gz")`. -/
def hasGzSuffix (s : String) : Bool :=
  match s.data.reverse with
  | 'z' :: 'g' :: '.' :: _ => true
  | _ => false

/-- Strip a trailing `.gz` (three characters). -/
def dropGzSuffix (s : String) : String :=
  String.mk (s.data.take (s.data.length - 3))

/-- `monty.shutil.decompress_file`: a `.gz` file is replaced by its
decompressed copy under the suffix-stripped name; any other file is left
untouched. -/
def decompress_file (fs : FileStore) (name : String) : FileStore :=
  if hasGzSuffix name then
    match lookupFile fs name with
    | some data => setFileData (removeFileName fs name) (dropGzSuffix name) data
    | none => fs
  else fs

/-- The destination name a staged file ends up under: its base name, with
the `.gz` suffix stripped when the copy is decompressed. -/
def stagedName (src : FileStore) (f : String) : String :=
  let b := basename (zpath src f)
  if hasGzSuffix b then dropGzSuffix b else b

/-- `copy_decompress(source_files, destination)`: each requested file that
exists (after `zpath` resolution) is copied into the destination under its
base name and decompressed; a missing file produces a `UserWarning`
message and staging continues with the remaining files. -/
def copy_decompress (src : FileStore) (source_files : List String) (dest : FileStore) :
    FileStore × List String :=
  match source_files with
  | [] => (dest, [])
  | f :: rest =>
    let z := zpath src f
    match lookupFile src z with
    | some data =>
        let dest1 := setFileData dest (basename z) data
        let dest2 := decompress_file dest1 (basename z)
        copy_decompress src rest dest2
    | none =>
        let (d, w) := copy_decompress src rest dest
        (d, ("Cannot find file: " ++ z) :: w)

/-! ## Unique scratch directories (`make_unique_dir`) -/

/-- The directories currently existing under one filesystem root. -/
structure DirPool where
  dirs : List String
deriving DecidableEq

/-- `make_unique_dir(base_path)`: builds the name
`quacc-<utc timestamp>-<randint(10000, 99999)>` from ambient time and
randomness (passed here as explicit inputs) and runs `os.makedirs`, which
raises `FileExistsError` when the directory already exists. -/
def make_unique_dir (pool : DirPool) (time_now : String) (rand : Nat)
    (base_path : Option String) : Except String (String × DirPool) :=
  let name := "quacc-" ++ time_now ++ "-" ++ toString rand
  let job_dir :=
    match base_path with
    | some b => b ++ "/" ++ name
    | none => name
  if job_dir ∈ pool.dirs then .error ("FileExistsError: " ++ job_dir)
  else .ok (job_dir, ⟨job_dir :: pool.dirs⟩)

/-- A sequence of `make_unique_dir` invocations against one scratch root,
every created directory staying live for the whole sequence; returns the
assigned directory paths in order (an invocation that raises assigns
nothing). -/
def runScratchJobs (pool : DirPool) :
    List (String × Nat × Option String) → List String × DirPool
  | [] => ([], pool)
  | (t, r, b) :: rest =>
    match make_unique_dir pool t r b with
    | .ok (d, pool1) =>
        let (ds, p) := runScratchJobs pool1 rest
        (d :: ds, p)
    | .error _ => runScratchJobs pool rest

/-! ## Data model for the calculation runner (`quacc/runners/ase.py`)

Geometry is modelled structurally: positions and cell rows are integer
vectors, since the runner only ever copies and compares them.  The
calculator's output properties (energy, forces, per-atom magnetic
moments, ...) are an opaque keyed record attached to the structure. -/

abbrev Vec3 := Int × Int × Int

/-- The results living on an ASE calculator after a successful
`calculate()` call, opaque to the runner. -/
structure CalcResults where
  results : List (String × List Int)
deriving DecidableEq

/-- An `ase.Atoms` object: atomic numbers, positions, cell, periodic
boundary flags, and the attached calculator's results (present only once
a calculation has run). -/
structure Atoms where
  numbers : List Nat
  positions : List Vec3
  cell : List Vec3
  pbc : List Bool
  calcr : Option CalcResults
deriving DecidableEq

/-- One image stored in a geometry file on disk (what `ase.io.read`
returns; no calculator attached). -/
structure Image where
  numbers : List Nat
  positions : List Vec3
  cell : List Vec3
deriving DecidableEq

/-- The scratch directory's geometry files: names with image lists. -/
abbrev GeomStore := List (String × List Image)

def lookupGeom : GeomStore → String → Option (List Image)
  | [], _ => none
  | (n, c) :: rest, name => if n == name then some c else lookupGeom rest name

def setGeom : GeomStore → String → List Image → GeomStore
  | [], name, c => [(name, c)]
  | (n, c0) :: rest, name, c =>
      if n == name then (n, c) :: rest else (n, c0) :: setGeom rest name c

/-- Apply a batch of file writes, later writes overriding earlier names. -/
def updateGeoms : GeomStore → GeomStore → GeomStore
  | fs, [] => fs
  | fs, (n, c) :: rest => updateGeoms (setGeom fs n c) rest

/-- `zpath` over geometry files: prefer the plain name, else the `.gz`
compressed copy. -/
def zpathG (fs : GeomStore) (name : String) : String :=
  if (lookupGeom fs name).isSome then name
  else if (lookupGeom fs (name ++ ".gz")).isSome then name ++ ".gz"
  else name

/-- Runner state after `__init__`: a deep copy of the caller's structure
with the calculator attached (`copy_atoms` plus `self.atoms.calc =
calculator`), and the scratch directory created by `setup` together with
its staged contents. -/
structure Runner where
  atoms : Atoms
  tmpdir : String
  files : GeomStore
deriving DecidableEq

/-- The outcome of the external calculator's `calculate()` call (the
computation itself is delegated to external code): either fresh
calculator results plus files written into the scratch directory, or an
exception with a message. -/
inductive CalcOutcome where
  | success (results : CalcResults) (writes : GeomStore)
  | failure (msg : String)
deriving DecidableEq

/-- Errors surfaced by the runner to its caller. -/
inductive RunError where
  | calcFailed (tmpdir : String) (msg : String)
  | fileNotFound (path : String)
  | emptyGeomFile (path : String)
  | atomicNumberMismatch
  | trajectoryKwarg
deriving DecidableEq

/-- The filesystem as the runner sees it: directories live under the
scratch root, and the permanent results directory's files. -/
structure JobFS where
  scratchDirs : List String
  resultsFiles : GeomStore
deriving DecidableEq

/-- The ambient quacc settings consulted by the runner. -/
structure Settings where
  debug : Bool
  gzip : Bool
deriving DecidableEq

/-- Modelled from the spec: `BaseRunner.cleanup` (`quacc.runners._base` /
`calc_cleanup`, not under `src/`): compress the outputs when enabled, copy
the scratch directory's contents into the permanent results directory,
then remove the scratch directory and its discovery symlink. -/
def cleanup (settings : Settings) (r : Runner) (fs : JobFS) (files : GeomStore) : JobFS :=
  { scratchDirs := fs.scratchDirs.filter (fun d => d != r.tmpdir)
    resultsFiles := updateGeoms fs.resultsFiles
      (if settings.gzip then files.map (fun p => (p.1 ++ ".gz", p.2)) else files) }

/-- Modelled from the spec: `terminate` (`quacc.runners.prep`, not under
`src/`): on an exception from the wrapped calculation, leave the scratch
directory in place for inspection and re-raise the exception with the
scratch path attached. -/
def terminate (tmpdir : String) (msg : String) (fs : JobFS) : RunError × JobFS :=
  (RunError.calcFailed tmpdir msg, fs)

/-- `Runner.run_calc(geom_file)`: run the calculator (on an exception,
`terminate` preserves the scratch directory and re-raises).  On success,
when `geom_file` is given, re-read that file from the scratch directory
(`zpath` resolves a compressed copy), take the last image, require the
atomic-number sequences to match (`ValueError` otherwise), and refresh
positions and cell in place, keeping the attached calculator's results;
finally `cleanup` removes the scratch directory. -/
def Runner.run_calc (r : Runner) (settings : Settings) (oc : CalcOutcome)
    (geom_file : Option String) (fs : JobFS) :
    Except (RunError × JobFS) (Atoms × JobFS) :=
  match oc with
  | .failure msg => .error (terminate r.tmpdir msg fs)
  | .success results writes =>
    let a : Atoms := { r.atoms with calcr := some results }
    let files := updateGeoms r.files writes
    match geom_file with
    | none => .ok (a, cleanup settings r fs files)
    | some g =>
      match lookupGeom files (zpathG files g) with
      | none => .error (RunError.fileNotFound (r.tmpdir ++ "/" ++ g), fs)
      | some imgs =>
        match imgs.getLast? with
        | none => .error (RunError.emptyGeomFile (r.tmpdir ++ "/" ++ g), fs)
        | some img =>
          if img.numbers = a.numbers then
            .ok ({ a with positions := img.positions, cell := img.cell },
                 cleanup settings r fs files)
          else .error (RunError.atomicNumberMismatch, fs)

/-- The optimizer class handed to `run_opt`, by the attributes the runner
inspects: `issubclass(optimizer, (SciPyOptimizer, MolecularDynamics))`,
`optimizer.__name__ == "IRC"`, `optimizer.__name__ == "Sella"`. -/
structure OptClass where
  isSciPyOrMD : Bool
  isIRC : Bool
  isSella : Bool
deriving DecidableEq

/-- The outcome of the external optimizer's `run`/`irun` loop. -/
inductive OptOutcome where
  | success (writes : GeomStore)
  | failure (msg : String)
deriving DecidableEq

/-- The dynamics object handed back by `run_opt`, recorded by its
effective optimizer kwargs and whether the structure was wrapped in a
`FrechetCellFilter`. -/
structure DynResult where
  kwargs : Dict
  cellFilter : Bool
deriving DecidableEq

/-- `optimizer_kwargs.pop(key, None)`. -/
def Dict.pop : Dict → String → Dict
  | .nil, _ => .nil
  | .cons k v rest, key => if k == key then rest else .cons k v (rest.pop key)

/-- `_set_sella_kwargs`: default `order = 0`, and `internal = True` for a
non-periodic structure, each only when not already given. -/
def setSellaKwargs (atoms : Atoms) (okw : Dict) : Dict :=
  let okw1 := if okw.hasKey "order" then okw else okw.set "order" (Val.prim "0")
  if !(atoms.pbc.any id) && !okw1.hasKey "internal" then
    okw1.set "internal" (Val.prim "True")
  else okw1

/-- The default optimizer log target: stdout (`"-"`) when debugging, else
`opt.log` in the scratch directory. -/
def logfileName (settings : Settings) (tmpdir : String) : String :=
  if settings.debug then "-" else tmpdir ++ "/opt.log"

/-- `Runner.run_opt(...)`: merge the default `logfile`/`restart` kwargs
with the caller's (`recursive_dict_merge`), raise `ValueError` on a
`trajectory` kwarg, drop `restart` for SciPy/MD/IRC optimizers, apply
Sella defaults, create the `opt.traj` trajectory file and attach the
`Trajectory` object as the real `trajectory` kwarg, optionally wrap the
structure in a cell filter, run the optimizer (external, outcome
parametrized: `terminate` on an exception), and `cleanup` on success. -/
def Runner.run_opt (r : Runner) (settings : Settings) (optimizer : OptClass)
    (outcome : OptOutcome) (relax_cell : Bool) (optimizer_kwargs : Option Dict)
    (fs : JobFS) : Except (RunError × JobFS) (DynResult × JobFS) :=
  let defaults : Dict :=
    Dict.cons "logfile" (Val.prim (logfileName settings r.tmpdir))
      (Dict.cons "restart" (Val.prim (r.tmpdir ++ "/opt.json")) Dict.nil)
  let okw := recursive_dict_merge (some defaults) optimizer_kwargs
  if okw.hasKey "trajectory" then .error (RunError.trajectoryKwarg, fs)
  else
    let okw1 := if optimizer.isSciPyOrMD || optimizer.isIRC then okw.pop "restart" else okw
    let okw2 := if optimizer.isSella then setSellaKwargs r.atoms okw1 else okw1
    let files1 := setGeom r.files "opt.traj" []
    let okw3 := okw2.set "trajectory" (Val.prim "<Trajectory opt.traj>")
    let wrapped := relax_cell && r.atoms.pbc.any id
    match outcome with
    | .failure msg => .error (terminate r.tmpdir msg fs)
    | .success writes =>
        let files2 := updateGeoms files1 writes
        .ok ({ kwargs := okw3, cellFilter := wrapped }, cleanup settings r fs files2)

/-! ## Heap model for mutation and aliasing (`_recursive_dict_pair_merge`)

The frame claim — that the merge never mutates its inputs — is about
Python object identity, so the merge is replayed here against an explicit
heap: objects live at addresses, dict entries hold the addresses of their
values, and each Python-level assignment `merged[key] = ...` is a heap
write.  Recursions carry explicit fuel (returning `none` when it runs
out); reading an address back as a pure `Val` makes "deeply equal before
and after the call" precise. -/

/-- A heap object: `None`, an opaque non-mapping value, or a dict whose
entries point at value addresses. -/
inductive Obj where
  | onone : Obj
  | oprim : String → Obj
  | odict : List (String × Nat) → Obj
deriving DecidableEq

/-- The Python heap: addresses are indices, allocation appends. -/
structure Heap where
  cells : List Obj
deriving DecidableEq

def Heap.read (h : Heap) (a : Nat) : Option Obj := h.cells[a]?

def Heap.size (h : Heap) : Nat := h.cells.length

def Heap.alloc (h : Heap) (o : Obj) : Nat × Heap := (h.cells.length, ⟨h.cells ++ [o]⟩)

def Heap.write (h : Heap) (a : Nat) (o : Obj) : Heap := ⟨h.cells.set a o⟩

/-- Every address stored in a dict cell points inside the heap. -/
def Heap.wf (h : Heap) : Bool :=
  h.cells.all (fun o =>
    match o with
    | .odict es => es.all (fun kv => kv.2 < h.cells.length)
    | _ => true)

/-- `key in d` / `d[key]` on stored dict entries. -/
def entriesGet : List (String × Nat) → String → Option Nat
  | [], _ => none
  | (k0, a) :: rest, k => if k0 == k then some a else entriesGet rest k

/-- `d[key] = addr` on stored dict entries: overwrite in place, else
append. -/
def entriesSet : List (String × Nat) → String → Nat → List (String × Nat)
  | [], k, a => [(k, a)]
  | (k0, a0) :: rest, k, a =>
      if k0 == k then (k0, a) :: rest else (k0, a0) :: entriesSet rest k a

mutual

/-- `copy.deepcopy` (inside `safe_dict_copy`): a structural copy built
from fresh allocations, never writing to existing cells. -/
def deepcopyH : Nat → Heap → Nat → Option (Nat × Heap)
  | 0, _, _ => none
  | fuel + 1, h, a =>
    match h.read a with
    | none => none
    | some .onone => some (h.alloc .onone)
    | some (.oprim s) => some (h.alloc (.oprim s))
    | some (.odict es) =>
        match deepcopyEntriesH fuel h es with
        | none => none
        | some (es2, h2) => some (h2.alloc (.odict es2))

def deepcopyEntriesH : Nat → Heap → List (String × Nat) → Option (List (String × Nat) × Heap)
  | 0, _, _ => none
  | _ + 1, h, [] => some ([], h)
  | fuel + 1, h, (k, a) :: rest =>
      match deepcopyH fuel h a with
      | none => none
      | some (a2, h2) =>
          match deepcopyEntriesH fuel h2 rest with
          | none => none
          | some (es2, h3) => some ((k, a2) :: es2, h3)

end

/-- `dict1 = dict1 or ...` followed by `merged = safe_dict_copy(dict1)`:
`None` becomes a fresh empty dict, any other argument is deep-copied. -/
def copyArg (fuel : Nat) (h : Heap) (a1 : Option Nat) : Option (Nat × Heap) :=
  match a1 with
  | none => some (h.alloc (.odict []))
  | some a => deepcopyH fuel h a

/-- `dict2.items()`: `None` gives the empty mapping; a non-mapping
argument is a type error. -/
def readEntries (h : Heap) (a2 : Option Nat) : Option (List (String × Nat)) :=
  match a2 with
  | none => some []
  | some b =>
    match h.read b with
    | some (.odict es) => some es
    | _ => none

mutual

/-- `_recursive_dict_pair_merge` on the heap: normalize a `None` argument
to a fresh empty dict, deep-copy `dict1` (`safe_dict_copy`; the shallow
fallback is unreachable since the modelled `deepcopy` can only run out of
fuel), then fold `dict2.items()` into the copy. -/
def pairMergeH : Nat → Heap → Option Nat → Option Nat → Option (Nat × Heap)
  | 0, _, _, _ => none
  | fuel + 1, h, a1, a2 =>
    match copyArg fuel h a1 with
    | none => none
    | some (m, h1) =>
      match h1.read m with
      | some (.odict _) =>
        match readEntries h1 a2 with
        | none => none
        | some es => mergeLoopH fuel h1 m es
      | _ => none

/-- The `for key, value in dict2.items()` loop: each assignment
`merged[key] = ...` writes the merged dict's cell; the value inserted for
a non-colliding (or non-mapping) key is `dict2`'s value address itself. -/
def mergeLoopH : Nat → Heap → Nat → List (String × Nat) → Option (Nat × Heap)
  | 0, _, _, _ => none
  | _ + 1, h, m, [] => some (m, h)
  | fuel + 1, h, m, (k, va) :: rest =>
    match h.read m with
    | some (.odict mes) =>
      match entriesGet mes k with
      | some ma =>
        match h.read ma, h.read va with
        | some (.odict _), some (.odict _) =>
          match pairMergeH fuel h (some ma) (some va) with
          | none => none
          | some (ra, h2) =>
            match h2.read m with
            | some (.odict mes2) =>
                mergeLoopH fuel (h2.write m (.odict (entriesSet mes2 k ra))) m rest
            | _ => none
        | _, _ => mergeLoopH fuel (h.write m (.odict (entriesSet mes k va))) m rest
      | none => mergeLoopH fuel (h.write m (.odict (entriesSet mes k va))) m rest
    | _ => none

end

mutual

/-- `remove_dict_nones` on the heap (default `allowed_nones`): rebuild
every mapping as a fresh dict, dropping `None`-valued keys; non-mapping
values are returned as the same object. -/
def removeNonesH : Nat → Heap → Nat → Option (Nat × Heap)
  | 0, _, _ => none
  | fuel + 1, h, a =>
    match h.read a with
    | some (.odict es) =>
        match cleanEntriesH fuel h es with
        | none => none
        | some (es2, h2) => some (h2.alloc (.odict es2))
    | some _ => some (a, h)
    | none => none

def cleanEntriesH : Nat → Heap → List (String × Nat) → Option (List (String × Nat) × Heap)
  | 0, _, _ => none
  | _ + 1, h, [] => some ([], h)
  | fuel + 1, h, (k, va) :: rest =>
    match h.read va with
    | some .onone => cleanEntriesH fuel h rest
    | some _ =>
        match removeNonesH fuel h va with
        | none => none
        | some (va2, h2) =>
            match cleanEntriesH fuel h2 rest with
            | none => none
            | some (es2, h3) => some ((k, va2) :: es2, h3)
    | none => none

end

/-- `recursive_dict_merge(dict1, dict2)` on the heap (two arguments,
default `remove_nones=True`): the pairwise merge, the loop's
`old_dict = safe_dict_copy(merged)` deep copy, then `remove_dict_nones`. -/
def recursiveDictMergeH (fuel : Nat) (h : Heap) (a1 a2 : Option Nat) :
    Option (Nat × Heap) :=
  match pairMergeH fuel h a1 a2 with
  | none => none
  | some (m, h1) =>
    match deepcopyH fuel h1 m with
    | none => none
    | some (_, h2) => removeNonesH fuel h2 m

mutual

/-- Read the pure value tree rooted at an address (fuel-bounded). -/
def readbackH : Nat → Heap → Nat → Option Val
  | 0, _, _ => none
  | fuel + 1, h, a =>
    match h.read a with
    | some .onone => some Val.vnone
    | some (.oprim s) => some (Val.prim s)
    | some (.odict es) =>
        match readbackEntriesH fuel h es with
        | none => none
        | some d => some (Val.vdict d)
    | none => none

def readbackEntriesH : Nat → Heap → List (String × Nat) → Option Dict
  | 0, _, _ => none
  | _ + 1, _, [] => some Dict.nil
  | fuel + 1, h, (k, va) :: rest =>
      match readbackH fuel h va, readbackEntriesH fuel h rest with
      | some v, some d => some (Dict.cons k v d)
      | _, _ => none

end

/-- `h'` preserves `h` below `n`: the heap only grew, and no cell below
`n` changed. -/
def preservesBelow (n : Nat) (h h' : Heap) : Prop :=
  h.size ≤ h'.size ∧ ∀ i, i < n → h'.read i = h.read i

/-! ## Sample data for concrete instantiations -/

def sampleAtoms : Atoms :=
  ⟨[1, 8], [(0, 0, 0), (1, 0, 0)], [(9, 0, 0), (0, 9, 0), (0, 0, 9)], [true], none⟩

/-- An on-disk image with the same species sequence as `sampleAtoms` but
different positions and cell. -/
def sampleImage : Image :=
  ⟨[1, 8], [(2, 0, 0), (3, 0, 0)], [(8, 0, 0), (0, 8, 0), (0, 0, 8)]⟩

/-- An on-disk image whose species sequence differs from `sampleAtoms`. -/
def badImage : Image :=
  ⟨[1, 1], [(2, 0, 0), (3, 0, 0)], [(8, 0, 0), (0, 8, 0), (0, 0, 8)]⟩

def sampleRunner : Runner :=
  ⟨sampleAtoms, "tmp", [("out.xyz", [sampleImage]), ("bad.xyz", [badImage])]⟩

def sampleSettings : Settings := ⟨false, false⟩

def sampleFS : JobFS := ⟨["tmp"], []⟩

def sampleResults : CalcResults := ⟨[("magmoms", [1, -1])]⟩

/-! ## Basic association-list lemmas -/

theorem Dict.hasKey_iff_mem_keys : ∀ (d : Dict) (k : String),
    d.hasKey k = true ↔ k ∈ d.keys
  | .nil, k => by simp [Dict.hasKey, Dict.keys]
  | .cons k0 v0 rest, k => by
      rw [Dict.hasKey, Dict.keys]
      simp only [Bool.or_eq_true, beq_iff_eq, List.mem_cons,
        Dict.hasKey_iff_mem_keys rest k]
      constructor <;> rintro (h | h)
      · exact Or.inl h.symm
      · exact Or.inr h
      · exact Or.inl h.symm
      · exact Or.inr h

theorem Dict.lookup_eq_none_of_not_mem : ∀ (d : Dict) (k : String),
    k ∉ d.keys → d.lookup k = none
  | .nil, _, _ => rfl
  | .cons k0 v0 rest, k, h => by
      simp [Dict.keys] at h
      simp [Dict.lookup, Ne.symm h.1, Dict.lookup_eq_none_of_not_mem rest k h.2]

theorem Dict.lookup_set_self : ∀ (d : Dict) (k : String) (v : Val),
    (d.set k v).lookup k = some v
  | .nil, k, v => by simp [Dict.set, Dict.lookup]
  | .cons k0 v0 rest, k, v => by
      by_cases h : k0 = k <;>
        simp [Dict.set, Dict.lookup, h, Dict.lookup_set_self rest k v]

theorem Dict.lookup_set_ne : ∀ (d : Dict) (k0 k : String) (v : Val), k0 ≠ k →
    (d.set k0 v).lookup k = d.lookup k
  | .nil, k0, k, v, h => by simp [Dict.set, Dict.lookup, h]
  | .cons k1 v1 rest, k0, k, v, h => by
      by_cases h1 : k1 = k0 <;>
        simp [Dict.set, Dict.lookup, h1, h, Dict.lookup_set_ne rest k0 k v h]

theorem Dict.keys_set : ∀ (d : Dict) (k : String) (v : Val),
    (d.set k v).keys = if d.hasKey k then d.keys else d.keys ++ [k]
  | .nil, k, v => by simp [Dict.set, Dict.keys, Dict.hasKey]
  | .cons k0 v0 rest, k, v => by
      rw [Dict.set, Dict.hasKey]
      cases hbk : k0 == k
      · simp only [Bool.false_eq_true, if_false, Bool.false_or]
        rw [Dict.keys, Dict.keys_set rest k v]
        by_cases h2 : rest.hasKey k <;> simp [h2, Dict.keys]
      · simp [Dict.keys]

theorem Dict.nodup_keys_set (d : Dict) (k : String) (v : Val)
    (h : d.keys.Nodup) : (d.set k v).keys.Nodup := by
  rw [Dict.keys_set]
  by_cases hk : d.hasKey k
  · simpa [hk]
  · have : k ∉ d.keys := fun hmem => hk ((Dict.hasKey_iff_mem_keys d k).mpr hmem)
    simp [hk, List.nodup_append, h, this]

/-! ## Characterization of the pairwise merge -/

theorem mergeInto_keys_nodup : ∀ (d2 merged : Dict),
    merged.keys.Nodup → (mergeInto merged d2).keys.Nodup
  | .nil, merged, h => h
  | .cons k v rest, merged, h =>
      mergeInto_keys_nodup rest _ (Dict.nodup_keys_set merged k _ h)

/-- Per-key behavior of the `dict2.items()` loop: a key of `dict2` is
bound to `mergeAt` of the colliding values, any other key keeps the
accumulator's binding. -/
theorem mergeInto_lookup : ∀ (d2 merged : Dict) (k : String), d2.keys.Nodup →
    (mergeInto merged d2).lookup k =
      (match d2.lookup k with
       | some v => some (mergeAt (merged.lookup k) v)
       | none => merged.lookup k)
  | .nil, merged, k, _ => by simp [mergeInto, Dict.lookup]
  | .cons k2 v2 rest, merged, k, h => by
      have hrest : rest.keys.Nodup := by
        simpa [Dict.keys] using h.of_cons
      have hmem : k2 ∉ rest.keys := by
        simpa [Dict.keys] using (List.nodup_cons.mp (by simpa [Dict.keys] using h)).1
      rw [mergeInto, mergeInto_lookup rest _ k hrest]
      by_cases hk : k2 = k
      · subst hk
        rw [Dict.lookup_eq_none_of_not_mem rest k2 hmem]
        simp [Dict.lookup, Dict.lookup_set_self]
      · cases hrk : rest.lookup k <;>
          simp [Dict.lookup, hk, hrk, Dict.lookup_set_ne merged k2 k _ hk]

/-! ## Characterization of None removal -/

theorem remove_dict_nones_keys_subset : ∀ (allowed : List String) (d : Dict),
    (remove_dict_nones allowed d).keys ⊆ d.keys
  | allowed, .nil => by simp [remove_dict_nones]
  | allowed, .cons k v rest => by
      intro x hx
      rw [remove_dict_nones] at hx
      cases hkeep : (!v.isNone || allowed.contains k) <;> rw [hkeep] at hx
      · simp only [Bool.false_eq_true, if_false] at hx
        exact List.mem_cons_of_mem _ (remove_dict_nones_keys_subset allowed rest hx)
      · simp only [if_true, Dict.keys, List.mem_cons] at hx
        rcases hx with h | h
        · simp [Dict.keys, h]
        · exact List.mem_cons_of_mem _ (remove_dict_nones_keys_subset allowed rest h)

/-- Per-key behavior of `remove_dict_nones` on a dict with distinct keys:
a binding survives (cleaned recursively) unless its value is the sentinel
and the key is not in `allowed_nones`. -/
theorem remove_dict_nones_lookup : ∀ (allowed : List String) (d : Dict) (k : String),
    d.keys.Nodup →
    (remove_dict_nones allowed d).lookup k =
      (d.lookup k).bind (fun v =>
        if v.isNone && !allowed.contains k then none else some (cleanVal allowed v))
  | allowed, .nil, k, _ => by simp [remove_dict_nones, Dict.lookup]
  | allowed, .cons k0 v0 rest, k, h => by
      have hrest : rest.keys.Nodup := by simpa [Dict.keys] using h.of_cons
      have hmem : k0 ∉ rest.keys := by
        simpa [Dict.keys] using (List.nodup_cons.mp (by simpa [Dict.keys] using h)).1
      rw [remove_dict_nones]
      by_cases hk : k0 = k
      · subst hk
        cases hv : v0.isNone <;> cases hc : allowed.contains k0
        · simp [Dict.lookup, hv, hc]
        · simp [Dict.lookup, hv, hc]
        · have hnone : (remove_dict_nones allowed rest).lookup k0 = none :=
            Dict.lookup_eq_none_of_not_mem _ k0
              (fun hx => hmem (remove_dict_nones_keys_subset allowed rest hx))
          simp [Dict.lookup, hv, hc, hnone]
        · simp [Dict.lookup, hv, hc]
      · have hrec := remove_dict_nones_lookup allowed rest k hrest
        cases hkeep : (!v0.isNone || allowed.contains k0) <;>
          simp [Dict.lookup, hk, hrec]

/-- Unfolding `recursive_dict_merge` at its default arguments on exactly
two dictionaries. -/
theorem recursive_dict_merge_two (A B : Dict) :
    recursive_dict_merge (some A) (some B) = remove_dict_nones [] (mergeInto A B) :=
  rfl

mutual

theorem remove_dict_nones_of_noNones : ∀ (allowed : List String) (d : Dict),
    d.noNones = true → remove_dict_nones allowed d = d
  | _, .nil, _ => rfl
  | allowed, .cons k v rest, h => by
      have hv : v.noNonesV = true := by
        simp [Dict.noNones] at h; exact h.1
      have hrest : rest.noNones = true := by
        simp [Dict.noNones] at h; exact h.2
      have hnn : v.isNone = false := by
        cases v <;> simp_all [Val.noNonesV, Val.isNone]
      simp [remove_dict_nones, hnn, cleanVal_of_noNones allowed v hv,
        remove_dict_nones_of_noNones allowed rest hrest]

theorem cleanVal_of_noNones : ∀ (allowed : List String) (v : Val),
    v.noNonesV = true → cleanVal allowed v = v
  | allowed, .vdict d, h => by
      simp [cleanVal,
        remove_dict_nones_of_noNones allowed d (by simpa [Val.noNonesV] using h)]
  | _, .vnone, h => by simp [Val.noNonesV] at h
  | _, .prim _, _ => rfl

end

/-! ## File-store lemmas -/

theorem lookupFile_set_self : ∀ (fs : FileStore) (n : String) (d : Nat),
    lookupFile (setFileData fs n d) n = some d
  | [], n, d => by simp [setFileData, lookupFile]
  | (n0, d0) :: rest, n, d => by
      by_cases h : n0 = n <;>
        simp [setFileData, lookupFile, h, lookupFile_set_self rest n d]

theorem lookupFile_set_ne : ∀ (fs : FileStore) (n m : String) (d : Nat), n ≠ m →
    lookupFile (setFileData fs n d) m = lookupFile fs m
  | [], n, m, d, h => by simp [setFileData, lookupFile, h]
  | (n0, d0) :: rest, n, m, d, h => by
      by_cases h0 : n0 = n
      · subst h0
        simp [setFileData, lookupFile, h]
      · by_cases hm : n0 = m
        · subst hm
          simp [setFileData, lookupFile, h0]
        · simp [setFileData, lookupFile, h0, hm, lookupFile_set_ne rest n m d h]

theorem lookupFile_remove : ∀ (fs : FileStore) (n m : String),
    lookupFile (removeFileName fs n) m = if n = m then none else lookupFile fs m
  | [], n, m => by simp [removeFileName, lookupFile]
  | (n0, d0) :: rest, n, m => by
      have hrec := lookupFile_remove rest n m
      by_cases h0 : n0 = n
      · subst h0
        by_cases hm : n0 = m
        · subst hm
          simp [removeFileName, lookupFile, hrec]
        · simp [removeFileName, lookupFile, hm, hrec]
      · by_cases hm : n0 = m
        · subst hm
          have hnm : ¬n = n0 := fun he => h0 he.symm
          simp [removeFileName, lookupFile, h0, hnm]
        · simp [removeFileName, lookupFile, h0, hm, hrec]

/-- Staging one existing payload under base name `b`: the staged
(decompressed) name holds the payload. -/
theorem stage_lookup_self (dest : FileStore) (b : String) (data : Nat) :
    lookupFile (decompress_file (setFileData dest b data) b)
      (if hasGzSuffix b then dropGzSuffix b else b) = some data := by
  unfold decompress_file
  by_cases hgz : hasGzSuffix b
  · simp only [hgz, if_true, lookupFile_set_self]
  · simp only [hgz, Bool.false_eq_true, if_false, lookupFile_set_self]

/-- Staging one payload under base name `b` leaves every name other than
`b` and the staged name untouched. -/
theorem stage_lookup_preserve (dest : FileStore) (b : String) (data : Nat) (n : String)
    (hb : n ≠ b) (hs : n ≠ (if hasGzSuffix b then dropGzSuffix b else b)) :
    lookupFile (decompress_file (setFileData dest b data) b) n = lookupFile dest n := by
  unfold decompress_file
  by_cases hgz : hasGzSuffix b
  · rw [if_pos hgz] at hs
    simp only [hgz, if_true, lookupFile_set_self]
    rw [lookupFile_set_ne _ _ _ _ (fun he => hs he.symm), lookupFile_remove,
      if_neg (fun he => hb he.symm), lookupFile_set_ne _ _ _ _ (fun he => hb he.symm)]
  · rw [if_neg hgz] at hs
    simp only [hgz, Bool.false_eq_true, if_false]
    exact lookupFile_set_ne _ _ _ _ (fun he => hb he.symm)

/-- The warnings of `copy_decompress` are exactly one `Cannot find file`
message per requested file that does not exist. -/
theorem copy_decompress_warnings : ∀ (src : FileStore) (files : List String) (dest : FileStore),
    (copy_decompress src files dest).2 = files.filterMap (fun f =>
      if (lookupFile src (zpath src f)).isSome then none
      else some ("Cannot find file: " ++ zpath src f))
  | _, [], _ => rfl
  | src, f :: rest, dest => by
      rw [copy_decompress]
      cases hf : lookupFile src (zpath src f) <;>
        simp [hf, copy_decompress_warnings src rest]

/-- Names not written by any staged file keep their destination binding. -/
theorem copy_decompress_preserves : ∀ (src : FileStore) (files : List String)
    (dest : FileStore) (n : String),
    (∀ g ∈ files, n ≠ basename (zpath src g) ∧ n ≠ stagedName src g) →
    lookupFile (copy_decompress src files dest).1 n = lookupFile dest n
  | _, [], _, _, _ => rfl
  | src, f :: rest, dest, n, h => by
      rw [copy_decompress]
      have hrest : ∀ g ∈ rest, n ≠ basename (zpath src g) ∧ n ≠ stagedName src g :=
        fun g hg => h g (List.mem_cons_of_mem f hg)
      cases hf : lookupFile src (zpath src f)
      · simpa [hf] using copy_decompress_preserves src rest dest n hrest
      · have hself := h f (List.mem_cons_self f rest)
        simp only [hf]
        rw [copy_decompress_preserves src rest _ n hrest]
        exact stage_lookup_preserve dest (basename (zpath src f)) _ n hself.1
          (by simpa [stagedName] using hself.2)

/-! ## Scratch-directory lemmas -/

theorem runScratchJobs_strong : ∀ (invs : List (String × Nat × Option String)) (pool : DirPool),
    (runScratchJobs pool invs).1.Nodup
    ∧ (∀ d ∈ (runScratchJobs pool invs).1, d ∉ pool.dirs)
    ∧ pool.dirs ⊆ (runScratchJobs pool invs).2.dirs
  | [], pool => by simp [runScratchJobs]
  | (t, r, b) :: rest, pool => by
      rw [runScratchJobs]
      unfold make_unique_dir
      set name :=
        (match b with
         | some bp => bp ++ "/" ++ ("quacc-" ++ t ++ "-" ++ toString r)
         | none => "quacc-" ++ t ++ "-" ++ toString r) with hname
      by_cases hmem : name ∈ pool.dirs
      · simp only [hmem, if_true]
        exact runScratchJobs_strong rest pool
      · simp only [hmem, if_false]
        obtain ⟨hnd, hfresh, hsub⟩ := runScratchJobs_strong rest ⟨name :: pool.dirs⟩
        refine ⟨?_, ?_, ?_⟩
        · refine List.nodup_cons.mpr ⟨?_, hnd⟩
          intro hin
          exact hfresh name hin (List.mem_cons_self name pool.dirs)
        · intro d hd
          rcases List.mem_cons.mp hd with h | h
          · exact h ▸ hmem
          · intro hp
            exact hfresh d h (List.mem_cons_of_mem name hp)
        · exact fun x hx => hsub (List.mem_cons_of_mem name hx)

/-! ## Runner lemmas -/

theorem Dict.lookup_isSome_eq_hasKey : ∀ (d : Dict) (k : String),
    (d.lookup k).isSome = d.hasKey k
  | .nil, _ => rfl
  | .cons k0 v rest, k => by
      by_cases h : k0 = k <;>
        simp [Dict.lookup, Dict.hasKey, h, Dict.lookup_isSome_eq_hasKey rest k]

/-- `cleanup` always removes the scratch directory from the scratch root. -/
theorem not_mem_cleanup_scratch (settings : Settings) (r : Runner) (fs : JobFS)
    (files : GeomStore) : r.tmpdir ∉ (cleanup settings r fs files).scratchDirs := by
  simp [cleanup, List.mem_filter]

/-- The `run_opt` default kwargs have distinct keys, whatever the
values. -/
theorem defaults_keys_nodup (x y : Val) :
    (Dict.cons "logfile" x (Dict.cons "restart" y Dict.nil)).keys.Nodup := by
  rw [show (Dict.cons "logfile" x (Dict.cons "restart" y Dict.nil)).keys
      = ["logfile", "restart"] from rfl]
  decide

/-- A key bound in the second merge argument to a non-sentinel value is
present in the merged result when the first argument does not bind it. -/
theorem recursive_dict_merge_hasKey_of_right (dflt kwargs : Dict) (k : String)
    (hd : dflt.keys.Nodup) (hdk : dflt.lookup k = none) (hk : kwargs.keys.Nodup)
    (v : Val) (hv : kwargs.lookup k = some v) (hnn : v ≠ Val.vnone) :
    (recursive_dict_merge (some dflt) (some kwargs)).hasKey k = true := by
  have hnodup : (mergeInto dflt kwargs).keys.Nodup := mergeInto_keys_nodup kwargs dflt hd
  have hm := mergeInto_lookup kwargs dflt k hk
  rw [hv] at hm
  have hmv : (mergeInto dflt kwargs).lookup k = some v := by
    rw [hm, hdk]
    cases v <;> rfl
  have hvn : v.isNone = false := by
    cases v
    · exact absurd rfl hnn
    · rfl
    · rfl
  rw [← Dict.lookup_isSome_eq_hasKey, recursive_dict_merge_two,
    remove_dict_nones_lookup [] _ k hnodup, hmv]
  simp [hvn]

/-! ## Heap-preservation lemmas -/

theorem preservesBelow_refl (n : Nat) (h : Heap) : preservesBelow n h h :=
  ⟨le_refl _, fun _ _ => rfl⟩

theorem preservesBelow_trans {n : Nat} {h1 h2 h3 : Heap}
    (p : preservesBelow n h1 h2) (q : preservesBelow n h2 h3) :
    preservesBelow n h1 h3 :=
  ⟨le_trans p.1 q.1, fun i hi => (q.2 i hi).trans (p.2 i hi)⟩

theorem alloc_preservesBelow (h : Heap) (o : Obj) (n : Nat) (hn : n ≤ h.size) :
    preservesBelow n h (h.alloc o).2 := by
  refine ⟨?_, fun i hi => ?_⟩
  · simp [Heap.alloc, Heap.size]
  · simp only [Heap.alloc, Heap.read]
    exact List.getElem?_append_left (lt_of_lt_of_le hi hn)

theorem write_preservesBelow (h : Heap) (a : Nat) (o : Obj) (n : Nat) (hn : n ≤ a) :
    preservesBelow n h (h.write a o) := by
  refine ⟨?_, fun i hi => ?_⟩
  · simp [Heap.write, Heap.size]
  · simp only [Heap.write, Heap.read]
    exact List.getElem?_set_ne (Nat.ne_of_lt (lt_of_lt_of_le hi hn)).symm

mutual

/-- `deepcopy` only allocates: the result is a fresh address and every
pre-existing cell is untouched. -/
theorem deepcopyH_preserves : ∀ (fuel : Nat) (h : Heap) (a r : Nat) (h2 : Heap),
    deepcopyH fuel h a = some (r, h2) →
    h.size ≤ r ∧ ∀ n, n ≤ h.size → preservesBelow n h h2
  | 0, h, a, r, h2, heq => by simp [deepcopyH] at heq
  | fuel + 1, h, a, r, h2, heq => by
      rw [deepcopyH] at heq
      split at heq
      · simp at heq
      · simp only [Heap.alloc, Option.some.injEq, Prod.mk.injEq] at heq
        obtain ⟨hr2, hh2⟩ := heq
        subst hr2
        subst hh2
        exact ⟨le_refl _, fun n hn => alloc_preservesBelow h _ n hn⟩
      · simp only [Heap.alloc, Option.some.injEq, Prod.mk.injEq] at heq
        obtain ⟨hr2, hh2⟩ := heq
        subst hr2
        subst hh2
        exact ⟨le_refl _, fun n hn => alloc_preservesBelow h _ n hn⟩
      · rename_i es hread
        split at heq
        · simp at heq
        · rename_i es2 h3 hce
          simp only [Heap.alloc, Option.some.injEq, Prod.mk.injEq] at heq
          obtain ⟨hr2, hh2⟩ := heq
          subst hr2
          subst hh2
          have hpres := deepcopyEntriesH_preserves fuel h es es2 h3 hce
          have hsz : h.size ≤ h3.size := (hpres h.size (le_refl _)).1
          exact ⟨hsz, fun n hn =>
            preservesBelow_trans (hpres n hn)
              (alloc_preservesBelow h3 _ n (le_trans hn hsz))⟩

theorem deepcopyEntriesH_preserves : ∀ (fuel : Nat) (h : Heap) (es : List (String × Nat))
    (es2 : List (String × Nat)) (h2 : Heap),
    deepcopyEntriesH fuel h es = some (es2, h2) →
    ∀ n, n ≤ h.size → preservesBelow n h h2
  | 0, h, es, es2, h2, heq => by simp [deepcopyEntriesH] at heq
  | fuel + 1, h, [], es2, h2, heq => by
      simp only [deepcopyEntriesH, Option.some.injEq, Prod.mk.injEq] at heq
      rw [← heq.2]
      exact fun n _ => preservesBelow_refl n h
  | fuel + 1, h, (k, a) :: rest, es2, h2, heq => by
      rw [deepcopyEntriesH] at heq
      split at heq
      · simp at heq
      · rename_i a2 h3 hd
        split at heq
        · simp at heq
        · rename_i es3 h4 he
          simp only [Option.some.injEq, Prod.mk.injEq] at heq
          rw [← heq.2]
          intro n hn
          have hp1 := (deepcopyH_preserves fuel h a a2 h3 hd).2 n hn
          have hp2 := deepcopyEntriesH_preserves fuel h3 rest es3 h4 he n
            (le_trans hn hp1.1)
          exact preservesBelow_trans hp1 hp2

end

mutual

/-- The pairwise heap merge only writes to cells allocated after entry:
every pre-existing cell is untouched. -/
theorem pairMergeH_preserves : ∀ (fuel : Nat) (h : Heap) (a1 a2 : Option Nat)
    (r : Nat) (hf : Heap), pairMergeH fuel h a1 a2 = some (r, hf) →
    ∀ n, n ≤ h.size → preservesBelow n h hf
  | 0, h, a1, a2, r, hf, heq => by simp [pairMergeH] at heq
  | fuel + 1, h, a1, a2, r, hf, heq => by
      rw [pairMergeH] at heq
      split at heq
      · simp at heq
      · rename_i m h1 hstep
        have hstep2 : h.size ≤ m ∧ ∀ n, n ≤ h.size → preservesBelow n h h1 := by
          cases a1 with
          | none =>
              simp only [copyArg, Heap.alloc, Option.some.injEq, Prod.mk.injEq] at hstep
              obtain ⟨hm, hh⟩ := hstep
              subst hm
              subst hh
              exact ⟨le_refl _, fun n hn => alloc_preservesBelow h _ n hn⟩
          | some a => exact deepcopyH_preserves fuel h a m h1 hstep
        split at heq
        · split at heq
          · simp at heq
          · rename_i es hes
            intro n hn
            have h1p := hstep2.2 n hn
            have hml := mergeLoopH_preserves fuel h1 m es r hf heq n
              (le_trans hn h1p.1) (le_trans hn hstep2.1)
            exact preservesBelow_trans h1p hml
        · simp at heq

/-- The `dict2.items()` loop only writes the merged dict's own cell (and,
recursively, cells of nested merged copies), all at or above the entry
frontier. -/
theorem mergeLoopH_preserves : ∀ (fuel : Nat) (h : Heap) (m : Nat)
    (es : List (String × Nat)) (r : Nat) (hf : Heap),
    mergeLoopH fuel h m es = some (r, hf) →
    ∀ n, n ≤ h.size → n ≤ m → preservesBelow n h hf
  | 0, h, m, es, r, hf, heq => by simp [mergeLoopH] at heq
  | fuel + 1, h, m, [], r, hf, heq => by
      simp only [mergeLoopH, Option.some.injEq, Prod.mk.injEq] at heq
      rw [← heq.2]
      exact fun n _ _ => preservesBelow_refl n h
  | fuel + 1, h, m, (k, va) :: rest, r, hf, heq => by
      rw [mergeLoopH] at heq
      split at heq
      · rename_i mes hm
        split at heq
        · rename_i ma hma
          split at heq
          · rename_i hrma hrva
            split at heq
            · simp at heq
            · rename_i ra h2 hpm
              split at heq
              · rename_i mes2 hm2
                intro n hn hnm
                have hp := pairMergeH_preserves fuel h (some ma) (some va) ra h2 hpm n hn
                have hw := write_preservesBelow h2 m (.odict (entriesSet mes2 k ra)) n hnm
                have hrec := mergeLoopH_preserves fuel
                  (h2.write m (.odict (entriesSet mes2 k ra))) m rest r hf heq n
                  (le_trans hn (le_trans hp.1 hw.1)) hnm
                exact preservesBelow_trans hp (preservesBelow_trans hw hrec)
              · simp at heq
          · rename_i hnotboth
            intro n hn hnm
            have hw := write_preservesBelow h m (.odict (entriesSet mes k va)) n hnm
            have hrec := mergeLoopH_preserves fuel
              (h.write m (.odict (entriesSet mes k va))) m rest r hf heq n
              (le_trans hn hw.1) hnm
            exact preservesBelow_trans hw hrec
        · intro n hn hnm
          have hw := write_preservesBelow h m (.odict (entriesSet mes k va)) n hnm
          have hrec := mergeLoopH_preserves fuel
            (h.write m (.odict (entriesSet mes k va))) m rest r hf heq n
            (le_trans hn hw.1) hnm
          exact preservesBelow_trans hw hrec
      · simp at heq

end

mutual

/-- `remove_dict_nones` on the heap only reads and allocates. -/
theorem removeNonesH_preserves : ∀ (fuel : Nat) (h : Heap) (a r : Nat) (hf : Heap),
    removeNonesH fuel h a = some (r, hf) →
    ∀ n, n ≤ h.size → preservesBelow n h hf
  | 0, h, a, r, hf, heq => by simp [removeNonesH] at heq
  | fuel + 1, h, a, r, hf, heq => by
      rw [removeNonesH] at heq
      split at heq
      · split at heq
        · simp at heq
        · rename_i es2 h2 hce
          simp only [Heap.alloc, Option.some.injEq, Prod.mk.injEq] at heq
          obtain ⟨hr2, hh2⟩ := heq
          subst hr2
          subst hh2
          intro n hn
          have hp := cleanEntriesH_preserves fuel h _ es2 h2 hce n hn
          exact preservesBelow_trans hp (alloc_preservesBelow h2 _ n (le_trans hn hp.1))
      · simp only [Option.some.injEq, Prod.mk.injEq] at heq
        rw [← heq.2]
        exact fun n _ => preservesBelow_refl n h
      · simp at heq

theorem cleanEntriesH_preserves : ∀ (fuel : Nat) (h : Heap) (es : List (String × Nat))
    (es2 : List (String × Nat)) (hf : Heap),
    cleanEntriesH fuel h es = some (es2, hf) →
    ∀ n, n ≤ h.size → preservesBelow n h hf
  | 0, h, es, es2, hf, heq => by simp [cleanEntriesH] at heq
  | fuel + 1, h, [], es2, hf, heq => by
      simp only [cleanEntriesH, Option.some.injEq, Prod.mk.injEq] at heq
      rw [← heq.2]
      exact fun n _ => preservesBelow_refl n h
  | fuel + 1, h, (k, va) :: rest, es2, hf, heq => by
      rw [cleanEntriesH] at heq
      split at heq
      · exact cleanEntriesH_preserves fuel h rest es2 hf heq
      · split at heq
        · simp at heq
        · rename_i va2 h2 hrn
          split at heq
          · simp at heq
          · rename_i es3 h3 hce
            simp only [Option.some.injEq, Prod.mk.injEq] at heq
            rw [← heq.2]
            intro n hn
            have hp1 := removeNonesH_preserves fuel h va va2 h2 hrn n hn
            have hp2 := cleanEntriesH_preserves fuel h2 rest es3 h3 hce n
              (le_trans hn hp1.1)
            exact preservesBelow_trans hp1 hp2
      · simp at heq

end

/-- In a well-formed heap, every address stored in a dict cell points
inside the heap. -/
theorem wf_entries (h : Heap) (hwf : h.wf = true) (i : Nat) (es : List (String × Nat))
    (hread : h.read i = some (.odict es)) : ∀ kv ∈ es, kv.2 < h.size := by
  intro kv hkv
  have hmem : Obj.odict es ∈ h.cells := by
    have := hread
    unfold Heap.read at this
    exact List.getElem?_mem this
  have hall := (List.all_eq_true.mp hwf) _ hmem
  simp only [List.all_eq_true, decide_eq_true_eq] at hall
  exact hall kv hkv

mutual

/-- Readback only visits addresses below the frontier of a well-formed
heap, so a heap extension that preserves those cells reads back the same
value. -/
theorem readbackH_congr : ∀ (fuel : Nat) (h h2 : Heap), h.wf = true →
    preservesBelow h.size h h2 → ∀ a, a < h.size →
    readbackH fuel h2 a = readbackH fuel h a
  | 0, _, _, _, _, _, _ => rfl
  | fuel + 1, h, h2, hwf, hp, a, ha => by
      have hra : h2.read a = h.read a := hp.2 a ha
      cases hr : h.read a with
      | none => simp [readbackH, hra, hr]
      | some o =>
        cases o with
        | onone => simp [readbackH, hra, hr]
        | oprim s => simp [readbackH, hra, hr]
        | odict es =>
            have hes := readbackEntriesH_congr fuel h h2 hwf hp es
              (wf_entries h hwf a es hr)
            simp [readbackH, hra, hr, hes]

theorem readbackEntriesH_congr : ∀ (fuel : Nat) (h h2 : Heap), h.wf = true →
    preservesBelow h.size h h2 → ∀ es, (∀ kv ∈ es, kv.2 < h.size) →
    readbackEntriesH fuel h2 es = readbackEntriesH fuel h es
  | 0, _, _, _, _, _, _ => rfl
  | _ + 1, _, _, _, _, [], _ => rfl
  | fuel + 1, h, h2, hwf, hp, (k, va) :: rest, hes => by
      have h1 := readbackH_congr fuel h h2 hwf hp va
        (hes (k, va) (List.mem_cons_self _ _))
      have h2r := readbackEntriesH_congr fuel h h2 hwf hp rest
        (fun kv hkv => hes kv (List.mem_cons_of_mem _ hkv))
      simp [readbackEntriesH, h1, h2r]

end

/-! ## Claim theorems for the dict-merge utility -/

/-- C1: for configuration mappings `A`, `B` (with distinct keys, a Python
dict invariant), `recursive_dict_merge(A, B)` binds every key of `B` to
`B`'s value — where, when both colliding values are mappings, the value is
their recursive merge (`mergeAt`) — and binds every key of `A` not present
in `B` to `A`'s value; any key whose merged value is the removal sentinel
`None` is absent from the result, and the sentinel clause applies
recursively inside surviving mapping values (`cleanVal`). -/
theorem recursive_dict_merge_lookup_spec (A B : Dict)
    (hA : A.keys.Nodup) (hB : B.keys.Nodup) (k : String) :
    (∀ vB, B.lookup k = some vB →
      (recursive_dict_merge (some A) (some B)).lookup k =
        (if (mergeAt (A.lookup k) vB).isNone then none
         else some (cleanVal [] (mergeAt (A.lookup k) vB))))
    ∧ (B.lookup k = none →
      (recursive_dict_merge (some A) (some B)).lookup k =
        (A.lookup k).bind (fun v => if v.isNone then none else some (cleanVal [] v)))
    ∧ (∀ v, (mergeInto A B).lookup k = some v → v.isNone = true →
      (recursive_dict_merge (some A) (some B)).lookup k = none) := by
  have hnodup : (mergeInto A B).keys.Nodup := mergeInto_keys_nodup B A hA
  have hlook := remove_dict_nones_lookup [] (mergeInto A B) k hnodup
  have hmerge := mergeInto_lookup B A k hB
  refine ⟨?_, ?_, ?_⟩
  · intro vB hvB
    rw [recursive_dict_merge_two, hlook, hmerge, hvB]
    simp
  · intro hvB
    rw [recursive_dict_merge_two, hlook, hmerge, hvB]
    cases A.lookup k <;> simp
  · intro v hv hnone
    rw [recursive_dict_merge_two, hlook, hv]
    simp [hnone]

/-- Witness for C1 at concrete mappings `A = {"p": "1"}`, `B = {"p": "2"}`. -/
theorem recursive_dict_merge_lookup_spec_witness :
    (Dict.cons "p" (Val.prim "1") Dict.nil).keys.Nodup ∧
    (Dict.cons "p" (Val.prim "2") Dict.nil).keys.Nodup ∧
    (recursive_dict_merge (some (Dict.cons "p" (Val.prim "1") Dict.nil))
        (some (Dict.cons "p" (Val.prim "2") Dict.nil))).lookup "p" =
      (if (mergeAt ((Dict.cons "p" (Val.prim "1") Dict.nil).lookup "p")
            (Val.prim "2")).isNone then none
       else some (cleanVal [] (mergeAt
            ((Dict.cons "p" (Val.prim "1") Dict.nil).lookup "p") (Val.prim "2")))) :=
  ⟨by decide, by decide,
    (recursive_dict_merge_lookup_spec
        (Dict.cons "p" (Val.prim "1") Dict.nil)
        (Dict.cons "p" (Val.prim "2") Dict.nil)
        (by decide) (by decide) "p").1 (Val.prim "2") (by decide)⟩

/-- C6 counterexample: with the default `remove_nones=True`,
`recursive_dict_merge({"a": None}, {})` is `{}`, not `{"a": None}`, so
merging with the empty mapping is not a right identity for every mapping. -/
theorem merge_empty_right_identity_cex :
    recursive_dict_merge (some (Dict.cons "a" Val.vnone Dict.nil)) (some Dict.nil) ≠
      Dict.cons "a" Val.vnone Dict.nil := by
  decide

/-- C6 (amended): for every configuration mapping `A` in which no key (at
any mapping-nesting level) is bound to the removal sentinel `None`,
`recursive_dict_merge(A, {})` is deeply equal to `A`. -/
theorem merge_empty_right_identity_of_noNones (A : Dict) (h : A.noNones = true) :
    recursive_dict_merge (some A) (some Dict.nil) = A := by
  rw [recursive_dict_merge_two, mergeInto]
  exact remove_dict_nones_of_noNones [] A h

/-- Witness for the amended C6 at `A = {"x": "1"}`. -/
theorem merge_empty_right_identity_of_noNones_witness :
    (Dict.cons "x" (Val.prim "1") Dict.nil).noNones = true ∧
    recursive_dict_merge (some (Dict.cons "x" (Val.prim "1") Dict.nil))
        (some Dict.nil) = Dict.cons "x" (Val.prim "1") Dict.nil :=
  ⟨by decide,
    merge_empty_right_identity_of_noNones
      (Dict.cons "x" (Val.prim "1") Dict.nil) (by decide)⟩

/-- C8: over any sequence of scratch-job invocations against one scratch
root, with every created directory still live, the assigned temporary
directory paths are pairwise distinct, and distinct from every directory
that pre-existed under the root: `os.makedirs` raises `FileExistsError`
on a name collision instead of ever assigning an existing path. -/
theorem make_unique_dir_paths_distinct (invs : List (String × Nat × Option String))
    (pool : DirPool) :
    (runScratchJobs pool invs).1.Nodup
    ∧ ∀ d ∈ (runScratchJobs pool invs).1, d ∉ pool.dirs :=
  ⟨(runScratchJobs_strong invs pool).1, (runScratchJobs_strong invs pool).2.1⟩

/-- C9: `copy_decompress` stages every requested file that exists (after
`zpath` resolution) into the destination — copied under its base name and
decompressed — and for each requested file that does not exist it emits a
non-fatal `Cannot find file` warning and continues staging the remaining
files; the function is total, so staging never raises.  The `Pairwise`
hypothesis rules out two distinct requested files writing the same
destination name. -/
theorem copy_decompress_spec : ∀ (src : FileStore) (files : List String) (dest : FileStore),
    files.Pairwise (fun f g =>
      stagedName src f ≠ basename (zpath src g) ∧ stagedName src f ≠ stagedName src g) →
    ∀ f ∈ files,
      (∀ data, lookupFile src (zpath src f) = some data →
        lookupFile (copy_decompress src files dest).1 (stagedName src f) = some data)
      ∧ (lookupFile src (zpath src f) = none →
        ("Cannot find file: " ++ zpath src f) ∈ (copy_decompress src files dest).2)
  | _, [], _, _, f, hf => absurd hf (List.not_mem_nil f)
  | src, f0 :: rest, dest, hsep, f, hf => by
      obtain ⟨hhead, htail⟩ := List.pairwise_cons.mp hsep
      rcases List.mem_cons.mp hf with rfl | hfr
      · constructor
        · intro data hdata
          rw [copy_decompress]
          simp only [hdata]
          rw [copy_decompress_preserves src rest _ (stagedName src f)
            (fun g hg => hhead g hg)]
          simpa [stagedName] using stage_lookup_self dest (basename (zpath src f)) data
        · intro hnone
          rw [copy_decompress_warnings, List.filterMap_cons]
          simp [hnone]
      · constructor
        · intro data hdata
          rw [copy_decompress]
          cases h0 : lookupFile src (zpath src f0)
          · simpa [h0] using (copy_decompress_spec src rest dest htail f hfr).1 data hdata
          · simpa [h0] using (copy_decompress_spec src rest _ htail f hfr).1 data hdata
        · intro hnone
          rw [copy_decompress_warnings]
          have hmem : ("Cannot find file: " ++ zpath src f) ∈
              rest.filterMap (fun g =>
                if (lookupFile src (zpath src g)).isSome then none
                else some ("Cannot find file: " ++ zpath src g)) := by
            have hw := (copy_decompress_spec src rest dest htail f hfr).2 hnone
            rwa [copy_decompress_warnings] at hw
          rw [List.filterMap_cons]
          cases hfo : (if (lookupFile src (zpath src f0)).isSome then none
              else some ("Cannot find file: " ++ zpath src f0)) <;>
            simp [hmem]

/-- Witness for C9: `src = {"a.gz": 7}`, requested files `["a", "missing"]`:
the existing `a.gz` is staged and decompressed to `a`, the missing file
yields a warning. -/
theorem copy_decompress_spec_witness :
    lookupFile (copy_decompress [("a.gz", 7)] ["a", "missing"] []).1
        (stagedName [("a.gz", 7)] "a") = some 7
    ∧ ("Cannot find file: " ++ zpath [("a.gz", 7)] "missing") ∈
        (copy_decompress [("a.gz", 7)] ["a", "missing"] []).2 :=
  ⟨(copy_decompress_spec [("a.gz", 7)] ["a", "missing"] [] (by decide) "a"
      (by decide)).1 7 (by decide),
   (copy_decompress_spec [("a.gz", 7)] ["a", "missing"] [] (by decide) "missing"
      (by decide)).2 (by decide)⟩

/-- C10: `_recursive_dict_pair_merge` normalizes a `None` argument to the
empty mapping, so `recursive_dict_merge(None, D)` equals
`recursive_dict_merge({}, D)` and `recursive_dict_merge(D, None)` equals
`recursive_dict_merge(D, {})` for every mapping `D`. -/
theorem recursive_dict_merge_none_as_empty (D : Dict) :
    recursive_dict_merge none (some D) = recursive_dict_merge (some Dict.nil) (some D)
    ∧ recursive_dict_merge (some D) none = recursive_dict_merge (some D) (some Dict.nil) :=
  ⟨rfl, rfl⟩

/-- C7: the dict merge never mutates its inputs.  Run against an explicit
heap, a successful `recursive_dict_merge(A, B)` (pair merge, the loop's
`safe_dict_copy`, then `remove_dict_nones`) leaves every pre-existing
heap cell untouched; in particular the mappings rooted at `A` and `B`,
nested mappings included, read back deeply equal to their values before
the call — the result is built from copies, every write landing on a
freshly allocated cell. -/
theorem recursive_dict_merge_no_mutation (fuel : Nat) (h : Heap) (a b : Option Nat)
    (r : Nat) (hf : Heap) (hwf : h.wf = true)
    (hrun : recursiveDictMergeH fuel h a b = some (r, hf)) :
    (∀ i, i < h.size → hf.read i = h.read i)
    ∧ ∀ f x, x < h.size → readbackH f hf x = readbackH f h x := by
  have hpres : preservesBelow h.size h hf := by
    rw [recursiveDictMergeH] at hrun
    split at hrun
    · simp at hrun
    · rename_i m h1 hpm
      split at hrun
      · simp at hrun
      · rename_i c h2 hdc
        have p1 := pairMergeH_preserves fuel h a b m h1 hpm h.size (le_refl _)
        have p2 := (deepcopyH_preserves fuel h1 m c h2 hdc).2 h.size p1.1
        have p3 := removeNonesH_preserves fuel h2 m r hf hrun h.size
          (le_trans p1.1 p2.1)
        exact preservesBelow_trans p1 (preservesBelow_trans p2 p3)
  exact ⟨fun i hi => hpres.2 i hi,
    fun f x hx => readbackH_congr f h hf hwf hpres x hx⟩

/-- Witness for C7: merging the dicts at addresses 1 and 2 of a concrete
three-cell heap succeeds and leaves the input cells and their readbacks
unchanged. -/
theorem recursive_dict_merge_no_mutation_witness :
    (Heap.read
        ⟨[Obj.oprim "1", Obj.odict [("x", 0)], Obj.odict [("x", 0)],
          Obj.oprim "1", Obj.odict [("x", 0)], Obj.oprim "1",
          Obj.odict [("x", 5)], Obj.odict [("x", 0)]]⟩ 2 =
      Heap.read ⟨[Obj.oprim "1", Obj.odict [("x", 0)], Obj.odict [("x", 0)]]⟩ 2)
    ∧ (readbackH 5
        ⟨[Obj.oprim "1", Obj.odict [("x", 0)], Obj.odict [("x", 0)],
          Obj.oprim "1", Obj.odict [("x", 0)], Obj.oprim "1",
          Obj.odict [("x", 5)], Obj.odict [("x", 0)]]⟩ 1 =
      readbackH 5 ⟨[Obj.oprim "1", Obj.odict [("x", 0)], Obj.odict [("x", 0)]]⟩ 1) :=
  ⟨(recursive_dict_merge_no_mutation 12
      ⟨[Obj.oprim "1", Obj.odict [("x", 0)], Obj.odict [("x", 0)]]⟩
      (some 1) (some 2) 7
      ⟨[Obj.oprim "1", Obj.odict [("x", 0)], Obj.odict [("x", 0)],
        Obj.oprim "1", Obj.odict [("x", 0)], Obj.oprim "1",
        Obj.odict [("x", 5)], Obj.odict [("x", 0)]]⟩
      (by decide) (by decide)).1 2 (by decide),
   (recursive_dict_merge_no_mutation 12
      ⟨[Obj.oprim "1", Obj.odict [("x", 0)], Obj.odict [("x", 0)]]⟩
      (some 1) (some 2) 7
      ⟨[Obj.oprim "1", Obj.odict [("x", 0)], Obj.odict [("x", 0)],
        Obj.oprim "1", Obj.odict [("x", 0)], Obj.oprim "1",
        Obj.odict [("x", 5)], Obj.odict [("x", 0)]]⟩
      (by decide) (by decide)).2 5 1 (by decide)⟩

/-! ## Claim theorems for the calculation runner -/

/-- C2: after a successful `run_calc` with a `geom_file` whose last image
carries the same atomic-number sequence as the input structure but
different positions, the returned structure's positions and cell equal
those read from the file, while the calculator results produced by the
calculation (e.g. magnetic moments, which live only on the attached
calculator) are returned unchanged. -/
theorem run_calc_geom_refresh (r : Runner) (settings : Settings)
    (results : CalcResults) (writes : GeomStore) (g : String) (fs : JobFS)
    (imgs : List Image) (img : Image)
    (hfile : lookupGeom (updateGeoms r.files writes)
      (zpathG (updateGeoms r.files writes) g) = some imgs)
    (hlast : imgs.getLast? = some img)
    (hnum : img.numbers = r.atoms.numbers)
    (hpos : img.positions ≠ r.atoms.positions) :
    Runner.run_calc r settings (.success results writes) (some g) fs =
      .ok ({ r.atoms with
              positions := img.positions
              cell := img.cell
              calcr := some results },
           cleanup settings r fs (updateGeoms r.files writes)) := by
  rw [Runner.run_calc]
  simp only [hfile, hlast, hnum]
  simp

/-- Witness for C2: `sampleRunner` with the matching `out.xyz` image. -/
theorem run_calc_geom_refresh_witness :
    Runner.run_calc sampleRunner sampleSettings (.success sampleResults [])
        (some "out.xyz") sampleFS =
      .ok ({ sampleRunner.atoms with
              positions := sampleImage.positions
              cell := sampleImage.cell
              calcr := some sampleResults },
           cleanup sampleSettings sampleRunner sampleFS
             (updateGeoms sampleRunner.files [])) :=
  run_calc_geom_refresh sampleRunner sampleSettings sampleResults [] "out.xyz"
    sampleFS [sampleImage] sampleImage (by decide) (by decide) (by decide) (by decide)

/-- C3: `run_calc` with a `geom_file` raises `ValueError` when the
atomic-number sequence read from the geometry file differs from the input
structure's; it does not continue to a normal return. -/
theorem run_calc_number_mismatch_raises (r : Runner) (settings : Settings)
    (results : CalcResults) (writes : GeomStore) (g : String) (fs : JobFS)
    (imgs : List Image) (img : Image)
    (hfile : lookupGeom (updateGeoms r.files writes)
      (zpathG (updateGeoms r.files writes) g) = some imgs)
    (hlast : imgs.getLast? = some img)
    (hnum : img.numbers ≠ r.atoms.numbers) :
    Runner.run_calc r settings (.success results writes) (some g) fs =
      .error (RunError.atomicNumberMismatch, fs) := by
  rw [Runner.run_calc]
  simp only [hfile, hlast]
  simp [hnum]

/-- Witness for C3: `sampleRunner` with the mismatching `bad.xyz` image. -/
theorem run_calc_number_mismatch_raises_witness :
    Runner.run_calc sampleRunner sampleSettings (.success sampleResults [])
        (some "bad.xyz") sampleFS =
      .error (RunError.atomicNumberMismatch, sampleFS) :=
  run_calc_number_mismatch_raises sampleRunner sampleSettings sampleResults []
    "bad.xyz" sampleFS [badImage] badImage (by decide) (by decide) (by decide)

/-- C4 counterexample: a caller-supplied `optimizer_kwargs` containing the
key `"trajectory"` (bound to `None`) does not raise — the defaults merge
runs with `remove_nones=True` and strips the key before the check, so the
call proceeds to a normal completion. -/
theorem run_opt_trajectory_override_cex :
    (Dict.cons "trajectory" Val.vnone Dict.nil).hasKey "trajectory" = true
    ∧ (Runner.run_opt sampleRunner sampleSettings ⟨false, false, false⟩
        (.success []) false (some (Dict.cons "trajectory" Val.vnone Dict.nil))
        sampleFS).isOk = true := by
  decide

/-- C4 (amended): `run_opt` raises `ValueError` immediately — before the
optimizer can act, hence with the same error for every optimizer outcome —
exactly when the caller's `optimizer_kwargs` binds `"trajectory"` to a
value other than the removal sentinel `None`; a `None`-valued
`"trajectory"` is stripped by the defaults merge and silently ignored. -/
theorem run_opt_trajectory_override_raises (r : Runner) (settings : Settings)
    (optimizer : OptClass) (relax_cell : Bool) (kwargs : Dict) (fs : JobFS)
    (hk : kwargs.keys.Nodup) (v : Val) (hv : kwargs.lookup "trajectory" = some v)
    (hnn : v ≠ Val.vnone) (outcome : OptOutcome) :
    Runner.run_opt r settings optimizer outcome relax_cell (some kwargs) fs =
      .error (RunError.trajectoryKwarg, fs) := by
  have hkey := recursive_dict_merge_hasKey_of_right
    (Dict.cons "logfile" (Val.prim (logfileName settings r.tmpdir))
      (Dict.cons "restart" (Val.prim (r.tmpdir ++ "/opt.json")) Dict.nil))
    kwargs "trajectory" (defaults_keys_nodup _ _) rfl hk v hv hnn
  rw [Runner.run_opt]
  simp only [hkey, if_true]

/-- Witness for the amended C4: `{"trajectory": "my.traj"}` raises. -/
theorem run_opt_trajectory_override_raises_witness :
    Runner.run_opt sampleRunner sampleSettings ⟨false, false, false⟩
        (.success []) false (some (Dict.cons "trajectory" (Val.prim "my.traj") Dict.nil))
        sampleFS = .error (RunError.trajectoryKwarg, sampleFS) :=
  run_opt_trajectory_override_raises sampleRunner sampleSettings ⟨false, false, false⟩
    false (Dict.cons "trajectory" (Val.prim "my.traj") Dict.nil) sampleFS
    (by decide) (Val.prim "my.traj") (by decide) (by decide) (.success [])

/-- C5: for a job whose scratch directory is live under the scratch root,
every normal completion of `run_calc` or `run_opt` removes the scratch
directory from the scratch root, while an exception from the wrapped
calculation or optimizer is re-raised to the caller (with the scratch path
attached, never swallowed) and leaves the scratch directory in place. -/
theorem runner_scratch_lifecycle (r : Runner) (settings : Settings) (fs : JobFS)
    (hlive : r.tmpdir ∈ fs.scratchDirs) :
    (∀ oc geom a fs2, Runner.run_calc r settings oc geom fs = .ok (a, fs2) →
      r.tmpdir ∉ fs2.scratchDirs)
    ∧ (∀ msg geom, Runner.run_calc r settings (.failure msg) geom fs =
        .error (RunError.calcFailed r.tmpdir msg, fs) ∧ r.tmpdir ∈ fs.scratchDirs)
    ∧ (∀ optimizer relax msg,
        Runner.run_opt r settings optimizer (.failure msg) relax none fs =
          .error (RunError.calcFailed r.tmpdir msg, fs) ∧ r.tmpdir ∈ fs.scratchDirs)
    ∧ (∀ optimizer outcome relax okw d fs2,
        Runner.run_opt r settings optimizer outcome relax okw fs = .ok (d, fs2) →
        r.tmpdir ∉ fs2.scratchDirs) := by
  refine ⟨?_, ?_, ?_, ?_⟩
  · intro oc geom a fs2 h
    rcases oc with ⟨results, writes⟩ | msg
    · rcases geom with _ | g
      · simp only [Runner.run_calc, Except.ok.injEq, Prod.mk.injEq] at h
        rw [← h.2]
        exact not_mem_cleanup_scratch settings r fs _
      · rw [Runner.run_calc] at h
        cases hl : lookupGeom (updateGeoms r.files writes)
            (zpathG (updateGeoms r.files writes) g) with
        | none => simp [hl] at h
        | some imgs =>
          cases hg : imgs.getLast? with
          | none => simp [hl, hg] at h
          | some img =>
            simp only [hl, hg] at h
            split at h
            · simp only [Except.ok.injEq, Prod.mk.injEq] at h
              rw [← h.2]
              exact not_mem_cleanup_scratch settings r fs _
            · simp at h
    · simp [Runner.run_calc, terminate] at h
  · intro msg geom
    exact ⟨rfl, hlive⟩
  · intro optimizer relax msg
    exact ⟨rfl, hlive⟩
  · intro optimizer outcome relax okw d fs2 h
    rw [Runner.run_opt] at h
    split at h
    · simp at h
    · rcases outcome with writes | msg
      · simp only [Except.ok.injEq, Prod.mk.injEq] at h
        rw [← h.2]
        exact not_mem_cleanup_scratch settings r fs _
      · simp [terminate] at h

/-- Witness for C5: a failing calculation on `sampleRunner` re-raises with
the scratch path and preserves the scratch directory. -/
theorem runner_scratch_lifecycle_witness :
    (Runner.run_calc sampleRunner sampleSettings (.failure "boom") none sampleFS =
      .error (RunError.calcFailed sampleRunner.tmpdir "boom", sampleFS)
      ∧ sampleRunner.tmpdir ∈ sampleFS.scratchDirs) :=
  (runner_scratch_lifecycle sampleRunner sampleSettings sampleFS (by decide)).2.1
    "boom" none

end Quacc
